import Mathlib

/-!
Verification development for the calculator engine in
`src/components/Calculator.js` (rodrigopedra/sample-calculator).

The component's state hooks become a `CalcState` structure; each event
handler becomes a pure function `CalcState → CalcState` (React's setters
all read the pre-call state, so a handler's net effect is exactly a pure
update of the old state).  JavaScript numbers are modelled by `JSNum`:
an exact rational together with the IEEE special values `Infinity`,
`-Infinity` and `NaN`.  This idealises JS doubles in two documented ways:
arithmetic is exact (no rounding of binary floating point), and `-0` is
identified with `0`.  All concrete values appearing in the claims stay
well inside the range where both models agree.  Display strings are
modelled as `List Char` (JS strings here are ASCII).
-/

namespace SampleCalculator

/-- Executable rationals in canonical form (denominator positive, quotient
reduced by the gcd).  Mathlib's `ℚ` operations do not reduce inside the
kernel (their normalisation uses well-founded recursion), so the embedding
carries its own structurally-recursive rational arithmetic; every operation
below returns the canonical representative, hence structural equality of
`MyRat` values is value equality. -/
structure MyRat where
  num : Int
  den : Nat
deriving DecidableEq

/-- Euclid's algorithm with explicit fuel (structural recursion, so the
kernel can evaluate it; fuel `a + 1` always suffices). -/
def gcdFuel : ℕ → ℕ → ℕ → ℕ
  | 0, _, b => b
  | _ + 1, 0, b => b
  | fuel + 1, a, b => gcdFuel fuel (b % a) a

/-- Greatest common divisor, kernel-reducible. -/
def myGcd (a b : ℕ) : ℕ :=
  gcdFuel (a + 1) a b

/-- Canonical rational from a numerator and a positive denominator. -/
def normPair (n : Int) (d : Nat) : MyRat :=
  if d = 0 then ⟨0, 1⟩
  else
    let g := myGcd n.natAbs d
    ⟨n / (g : Int), d / g⟩

/-- Canonical rational from a numerator and a nonzero signed denominator. -/
def normPairSigned (n d : Int) : MyRat :=
  if d < 0 then normPair (-n) (-d).toNat else normPair n d.toNat

instance : OfNat MyRat n := ⟨⟨n, 1⟩⟩

instance : NatCast MyRat := ⟨fun n => ⟨n, 1⟩⟩

instance : Add MyRat := ⟨fun x y => normPair (x.num * y.den + y.num * x.den) (x.den * y.den)⟩

instance : Sub MyRat := ⟨fun x y => normPair (x.num * y.den - y.num * x.den) (x.den * y.den)⟩

instance : Mul MyRat := ⟨fun x y => normPair (x.num * y.num) (x.den * y.den)⟩

instance : Div MyRat := ⟨fun x y => normPairSigned (x.num * y.den) (x.den * y.num)⟩

instance : Neg MyRat := ⟨fun x => ⟨-x.num, x.den⟩⟩

instance : Pow MyRat ℕ := ⟨fun q n => normPair (q.num ^ n) (q.den ^ n)⟩

/-- Sign test: a canonical rational is negative iff its numerator is. -/
def MyRat.isNeg (q : MyRat) : Bool :=
  q.num < 0

/-- Sign test: a canonical rational is positive iff its numerator is. -/
def MyRat.isPos (q : MyRat) : Bool :=
  0 < q.num

/-- Model of a JavaScript number: a finite value (exact rational), the two
infinities, or `NaN`. -/
inductive JSNum where
  | num (q : MyRat)
  | inf
  | negInf
  | nan
deriving DecidableEq

/-- JavaScript `+` on numbers (finite arithmetic exact; IEEE rules for the
special values). -/
def jsAdd : JSNum → JSNum → JSNum
  | JSNum.num a, JSNum.num b => JSNum.num (a + b)
  | JSNum.nan, _ => JSNum.nan
  | _, JSNum.nan => JSNum.nan
  | JSNum.inf, JSNum.negInf => JSNum.nan
  | JSNum.negInf, JSNum.inf => JSNum.nan
  | JSNum.inf, _ => JSNum.inf
  | _, JSNum.inf => JSNum.inf
  | JSNum.negInf, _ => JSNum.negInf
  | _, JSNum.negInf => JSNum.negInf

/-- JavaScript `-` on numbers. -/
def jsSub : JSNum → JSNum → JSNum
  | JSNum.num a, JSNum.num b => JSNum.num (a - b)
  | JSNum.nan, _ => JSNum.nan
  | _, JSNum.nan => JSNum.nan
  | JSNum.inf, JSNum.inf => JSNum.nan
  | JSNum.negInf, JSNum.negInf => JSNum.nan
  | JSNum.inf, _ => JSNum.inf
  | JSNum.negInf, _ => JSNum.negInf
  | _, JSNum.inf => JSNum.negInf
  | _, JSNum.negInf => JSNum.inf

/-- JavaScript `*` on numbers. -/
def jsMul : JSNum → JSNum → JSNum
  | JSNum.num a, JSNum.num b => JSNum.num (a * b)
  | JSNum.nan, _ => JSNum.nan
  | _, JSNum.nan => JSNum.nan
  | JSNum.inf, JSNum.inf => JSNum.inf
  | JSNum.inf, JSNum.negInf => JSNum.negInf
  | JSNum.negInf, JSNum.inf => JSNum.negInf
  | JSNum.negInf, JSNum.negInf => JSNum.inf
  | JSNum.inf, JSNum.num b => if b = 0 then JSNum.nan else if b.isPos then JSNum.inf else JSNum.negInf
  | JSNum.num a, JSNum.inf => if a = 0 then JSNum.nan else if a.isPos then JSNum.inf else JSNum.negInf
  | JSNum.negInf, JSNum.num b => if b = 0 then JSNum.nan else if b.isPos then JSNum.negInf else JSNum.inf
  | JSNum.num a, JSNum.negInf => if a = 0 then JSNum.nan else if a.isPos then JSNum.negInf else JSNum.inf

/-- JavaScript `/` on numbers (division by zero yields an infinity or `NaN`,
as in IEEE; the `-0` divisor case is identified with `0`). -/
def jsDiv : JSNum → JSNum → JSNum
  | JSNum.num a, JSNum.num b =>
      if b = 0 then
        if a = 0 then JSNum.nan else if a.isPos then JSNum.inf else JSNum.negInf
      else JSNum.num (a / b)
  | JSNum.nan, _ => JSNum.nan
  | _, JSNum.nan => JSNum.nan
  | JSNum.inf, JSNum.inf => JSNum.nan
  | JSNum.inf, JSNum.negInf => JSNum.nan
  | JSNum.negInf, JSNum.inf => JSNum.nan
  | JSNum.negInf, JSNum.negInf => JSNum.nan
  | JSNum.inf, JSNum.num b => if b.isNeg then JSNum.negInf else JSNum.inf
  | JSNum.negInf, JSNum.num b => if b.isNeg then JSNum.inf else JSNum.negInf
  | JSNum.num _, JSNum.inf => JSNum.num 0
  | JSNum.num _, JSNum.negInf => JSNum.num 0

/-- The five calculator operators (`OPERATIONS` keys in the source). -/
inductive Op where
  | add
  | sub
  | mul
  | div
  | eq
deriving DecidableEq

/-- The `OPERATIONS` table: `'='` maps `(previous, next)` to `next`. -/
def jsApply : Op → JSNum → JSNum → JSNum
  | Op.add, a, b => jsAdd a b
  | Op.sub, a, b => jsSub a b
  | Op.mul, a, b => jsMul a b
  | Op.div, a, b => jsDiv a b
  | Op.eq, _, b => b

/-- JavaScript `x || 0` on a number: `0`, `-0` and `NaN` are falsy and
yield `0`; every other number is kept (`0` maps to `0` either way). -/
def jsOrZero (v : JSNum) : JSNum :=
  if v = JSNum.nan then JSNum.num 0 else v

/-- JavaScript `x || 0` on a nullable number (`null` is falsy). -/
def jsOrZeroOpt : Option JSNum → JSNum
  | none => JSNum.num 0
  | some v => jsOrZero v

/-- Decimal digit character for `n % 10`. -/
def digitChar (n : ℕ) : Char :=
  match n % 10 with
  | 0 => '0'
  | 1 => '1'
  | 2 => '2'
  | 3 => '3'
  | 4 => '4'
  | 5 => '5'
  | 6 => '6'
  | 7 => '7'
  | 8 => '8'
  | _ => '9'

/-- Decimal digits of a natural number, most significant first (fuelled;
the fuel `n + 1` always suffices since `n / 10 < n` for `n ≥ 10`). -/
def natDigitsAux : ℕ → ℕ → List Char
  | 0, _ => []
  | fuel + 1, n =>
      if n < 10 then [digitChar n]
      else natDigitsAux fuel (n / 10) ++ [digitChar (n % 10)]

/-- Decimal representation of a natural number. -/
def natToChars (n : ℕ) : List Char :=
  natDigitsAux (n + 1) n

/-- Integer part of a nonnegative rational, as a natural number. -/
def ratIntPart (q : MyRat) : ℕ :=
  q.num.toNat / q.den

/-- Fractional part of a nonnegative rational. -/
def ratFrac (q : MyRat) : MyRat :=
  q - (ratIntPart q : MyRat)

/-- Decimal digits of a fractional part, up to `fuel` digits, stopping when
the remainder hits zero (so no trailing zeros are produced). -/
def fracDigits : ℕ → MyRat → List Char
  | 0, _ => []
  | fuel + 1, r =>
      if r = 0 then []
      else
        let r10 := r * 10
        digitChar (ratIntPart r10) :: fracDigits fuel (r10 - (ratIntPart r10 : MyRat))

/-- Decimal representation of a nonnegative rational (integer part, then a
dot and the fractional digits when nonzero; at most 20 fractional digits —
the source relies on JS double-to-string shortest-form printing, which this
models exactly on terminating decimals of the lengths the UI can produce). -/
def posRatToChars (q : MyRat) : List Char :=
  let ip := natToChars (ratIntPart q)
  let fr := ratFrac q
  if fr = 0 then ip else ip ++ '.' :: fracDigits 20 fr

/-- Model of JavaScript `String(x)` for a number `x`. -/
def jsString : JSNum → List Char
  | JSNum.nan => "NaN".data
  | JSNum.inf => "Infinity".data
  | JSNum.negInf => "-Infinity".data
  | JSNum.num q => if q.isNeg then '-' :: posRatToChars (-q) else posRatToChars q

/-- Numeric value of a list of decimal digit characters. -/
def parseDigits (l : List Char) : ℕ :=
  l.foldl (fun acc c => acc * 10 + (c.toNat - 48)) 0

/-- The characters of a numeral after an optional leading minus sign. -/
def numBody (l : List Char) : List Char :=
  if l.head? = some '-' then l.drop 1 else l

/-- Whether a (sign-stripped) string is a decimal numeral: digits with at
most one dot and at least one digit overall. -/
def goodNumChars (body : List Char) : Bool :=
  match body.dropWhile (fun c => c ≠ '.') with
  | [] => !body.isEmpty && body.all Char.isDigit
  | _ :: fs =>
      (body.takeWhile (fun c => c ≠ '.')).all Char.isDigit && fs.all Char.isDigit &&
        !((body.takeWhile (fun c => c ≠ '.')) ++ fs).isEmpty && !fs.contains '.'

/-- Value of a valid (sign-stripped) decimal numeral. -/
def numValOf (body : List Char) : MyRat :=
  let fs := (body.dropWhile (fun c => c ≠ '.')).drop 1
  (parseDigits (body.takeWhile (fun c => c ≠ '.')) : MyRat) +
    (parseDigits fs : MyRat) / (10 : MyRat) ^ fs.length

/-- Model of JavaScript `Number(s)` on the strings this engine can hold:
the empty string is `0`; `Infinity` / `-Infinity` parse to the infinities;
an optional `-` followed by digits with at most one dot parses as a decimal;
anything else is `NaN`.  (Forms the engine never produces — exponents, hex,
whitespace, a leading `+` — are mapped to `NaN`.) -/
def jsNumber (l : List Char) : JSNum :=
  if l = [] then JSNum.num 0
  else if l = "Infinity".data then JSNum.inf
  else if l = "-Infinity".data then JSNum.negInf
  else if goodNumChars (numBody l) then
    JSNum.num (if l.head? = some '-' then -numValOf (numBody l) else numValOf (numBody l))
  else JSNum.nan

/-- Magnitude part of `toFixed`: for a magnitude below `10^21`, round
`q ≥ 0` to `f` fractional digits (ties round to the larger candidate, as
the ECMAScript `toFixed` spec requires) and print with exactly `f` digits
after the dot when `f > 0`; at `10^21` and above, `toFixed` falls back to
plain `ToString` of the value, with no fixed fraction. -/
def fixedMag (q : MyRat) (f : ℕ) : List Char :=
  if q.num.natAbs < 10 ^ 21 * q.den then
    let n : ℕ := ratIntPart (q * (10 : MyRat) ^ f + 1 / 2)
    if f = 0 then natToChars n
    else
      natToChars (n / 10 ^ f) ++ '.' :: (List.range f).map (fun i => digitChar (n / 10 ^ (f - 1 - i)))
  else posRatToChars q

/-- Successful result of JavaScript `x.toFixed(f)` for `f ≤ 100` (negative
values print the magnitude of `-x` behind a minus sign; the special values
print their names). -/
def jsToFixedTotal : JSNum → ℕ → List Char
  | JSNum.nan, _ => "NaN".data
  | JSNum.inf, _ => "Infinity".data
  | JSNum.negInf, _ => "-Infinity".data
  | JSNum.num q, f => if q.isNeg then '-' :: fixedMag (-q) f else fixedMag q f

/-- Model of JavaScript `x.toFixed(f)`: `none` models the `RangeError` the
spec requires for `f > 100` (the digit-count check precedes everything
else, so it fires even for the special values). -/
def jsToFixed (x : JSNum) (f : ℕ) : Option (List Char) :=
  if 100 < f then none else some (jsToFixedTotal x f)

/-- The calculator component's state hooks (`Calculator.js`, lines 46-52). -/
structure CalcState where
  displayValue : List Char
  isDirty : Bool
  isPending : Bool
  value : Option JSNum
  operator : Op
  previousValue : Option JSNum
  previousOperator : Op
deriving DecidableEq

/-- The state installed at mount and by `reset` (`Calculator.js` 46-52, 62-74). -/
def initState : CalcState :=
  { displayValue := "0".data
    isDirty := false
    isPending := false
    value := none
    operator := Op.eq
    previousValue := none
    previousOperator := Op.eq }

/-- The `reset` handler (`Calculator.js` 62-74): full return to the initial
state. -/
def reset (_ : CalcState) : CalcState :=
  initState

/-- The `clear` handler (`Calculator.js` 76-85): display back to `"0"`,
dirty flag off, and `isPending` armed when an operator is active. -/
def clear (s : CalcState) : CalcState :=
  let s1 := { s with displayValue := "0".data, isDirty := false }
  if s.operator ≠ Op.eq then { s1 with isPending := true } else s1

/-- The `changeSign` handler (`Calculator.js` 87-107). -/
def changeSign (s : CalcState) : CalcState :=
  if s.isPending ∧ s.operator ≠ Op.eq then
    { s with displayValue := "-0".data, isDirty := true, isPending := false }
  else
    let s1 :=
      if s.displayValue.head? = some '-' then
        { s with displayValue := s.displayValue.drop 1 }
      else
        { s with displayValue := '-' :: s.displayValue }
    if s.displayValue ≠ "0".data ∧ s.displayValue ≠ "-0".data then
      { s1 with isDirty := true }
    else s1

/-- Remainder of `displayValue` after the regex `^-?\d*\.?` is stripped
(`Calculator.js` line 116): drop one leading minus, then leading digits,
then one dot. -/
def stripIntPrefix (l : List Char) : List Char :=
  if ((numBody l).dropWhile Char.isDigit).head? = some '.' then
    ((numBody l).dropWhile Char.isDigit).drop 1
  else (numBody l).dropWhile Char.isDigit

/-- The `handlePercent` handler (`Calculator.js` 109-123): the source's
`number`, `decimalPart` and `newValue` locals are inlined.  When `toFixed`
raises `RangeError` (more than 100 digits requested), the exception fires
before any state setter has run, so the hook state is left unchanged — the
uncaught exception then takes down the component. -/
def handlePercent (s : CalcState) : CalcState :=
  if jsNumber s.displayValue = JSNum.num 0 then s
  else
    match jsToFixed (jsDiv (jsNumber s.displayValue) (JSNum.num 100))
        ((stripIntPrefix s.displayValue).length + 2) with
    | none => s
    | some out => { s with displayValue := out, isDirty := true }

/-- The `calculateAgain` helper (`Calculator.js` 125-139): `none` models the
`return false` path (no state change), `some` the `return true` path. -/
def calculateAgain (nextOperator : Op) (s : CalcState) : Option CalcState :=
  if s.previousOperator = Op.eq ∨ nextOperator ≠ Op.eq then none
  else
    let newValue := jsApply s.previousOperator (jsNumber s.displayValue) (jsOrZeroOpt s.previousValue)
    some { s with value := some newValue
                  displayValue := jsString newValue
                  isDirty := true
                  isPending := true }

/-- The `pendingCalculation` helper (`Calculator.js` 141-149). -/
def pendingCalculation (nextOperator : Op) (s : CalcState) : Option CalcState :=
  if nextOperator = Op.eq ∧ s.operator ≠ Op.eq then none
  else some { s with operator := nextOperator }

/-- The `calculate` handler (`Calculator.js` 151-178): try the repeat-equals
branch, then the pending-operator swap, then apply-and-chain.  The source's
trailing `setIsPending` / `setPreviousOperator` / `setOperator` calls of the
third branch are inlined into both arms of the `value` null-check. -/
def calculate (nextOperator : Op) (s : CalcState) : CalcState :=
  match (if s.operator = Op.eq then calculateAgain nextOperator s else none) with
  | some s1 => s1
  | none =>
      match (if s.isPending then pendingCalculation nextOperator s else none) with
      | some s2 => s2
      | none =>
          match s.value with
          | none =>
              { s with value := some (jsNumber s.displayValue)
                       isPending := true
                       previousOperator := s.operator
                       operator := nextOperator }
          | some v =>
              { s with value := some (jsApply s.operator (jsOrZero v) (jsNumber s.displayValue))
                       previousValue := some (jsNumber s.displayValue)
                       displayValue := jsString (jsApply s.operator (jsOrZero v) (jsNumber s.displayValue))
                       isDirty := true
                       isPending := true
                       previousOperator := s.operator
                       operator := nextOperator }

/-- The `handleDigit` handler (`Calculator.js` 180-194). -/
def handleDigit (d : Char) (s : CalcState) : CalcState :=
  let s1 :=
    if s.displayValue = "0".data then { s with displayValue := [d] }
    else if s.displayValue = "-0".data then { s with displayValue := ['-', d] }
    else if s.isPending then { s with displayValue := [d] }
    else { s with displayValue := s.displayValue ++ [d] }
  { s1 with isDirty := true, isPending := false }

/-- The `handleDot` handler (`Calculator.js` 196-214). -/
def handleDot (s : CalcState) : CalcState :=
  if s.isPending then
    { s with displayValue := "0.".data, isDirty := true, isPending := false }
  else if '.' ∉ s.displayValue then
    { s with displayValue := s.displayValue ++ ['.'], isDirty := true, isPending := false }
  else s

/-- The `handleBackspace` handler (`Calculator.js` 216-227). -/
def handleBackspace (s : CalcState) : CalcState :=
  let newCurrent := s.displayValue.dropLast
  if newCurrent = [] ∨ newCurrent = ['-'] then
    { s with displayValue := "0".data }
  else
    { s with displayValue := newCurrent, isDirty := true }

/-- One user action on the engine (the events `handleInput` and the buttons
can dispatch). -/
inductive EngineOp where
  | digit (d : Char)
  | dot
  | backspace
  | sign
  | percent
  | calcKey (o : Op)
  | clearEntry
  | allClear
deriving DecidableEq

/-- Interpretation of one user action. -/
def execOp : EngineOp → CalcState → CalcState
  | EngineOp.digit d, s => handleDigit d s
  | EngineOp.dot, s => handleDot s
  | EngineOp.backspace, s => handleBackspace s
  | EngineOp.sign, s => changeSign s
  | EngineOp.percent, s => handlePercent s
  | EngineOp.calcKey o, s => calculate o s
  | EngineOp.clearEntry, s => clear s
  | EngineOp.allClear, s => reset s

/-- Run a sequence of user actions from the initial state. -/
def run (ops : List EngineOp) : CalcState :=
  ops.foldl (fun s o => execOp o s) initState

/-- Number of characters after the first dot of a string (its count of
fractional digits when it is a decimal numeral). -/
def fracLen (l : List Char) : ℕ :=
  match l.dropWhile (fun c => c ≠ '.') with
  | [] => 0
  | _ :: fs => fs.length

/-- Concatenation of typed digits with the leading zeros collapsed (all-zero
input collapses to `"0"`). -/
def collapseZeros (ds : List Char) : List Char :=
  match ds.dropWhile (fun c => c = '0') with
  | [] => "0".data
  | l => l

/-- Display strings the engine maintains: non-empty, not a bare minus sign,
with no minus sign past the first character, and with at most one dot. -/
def goodDisplay (l : List Char) : Prop :=
  l ≠ [] ∧ l ≠ ['-'] ∧ (∀ c ∈ l.drop 1, c ≠ '-') ∧ List.count '.' l ≤ 1

instance (l : List Char) : Decidable (goodDisplay l) := by
  unfold goodDisplay
  infer_instance

/-- A user action the dispatch layer can actually send: digit presses carry
a decimal digit character (`handleInput` filters on the regex). -/
def goodOp : EngineOp → Bool
  | EngineOp.digit d => d.isDigit
  | _ => true

/-! ### Helper lemmas about characters and lists -/

lemma digitChar_ne_minus (n : ℕ) : digitChar n ≠ '-' := by
  unfold digitChar
  split <;> decide

lemma digitChar_ne_dot (n : ℕ) : digitChar n ≠ '.' := by
  unfold digitChar
  split <;> decide

lemma isDigit_ne_minus {c : Char} (h : c.isDigit = true) : c ≠ '-' := by
  intro he
  subst he
  simp at h

lemma isDigit_ne_dot {c : Char} (h : c.isDigit = true) : c ≠ '.' := by
  intro he
  subst he
  simp at h

lemma natDigitsAux_mem {c : Char} :
    ∀ fuel n : ℕ, c ∈ natDigitsAux fuel n → ∃ k, c = digitChar k := by
  intro fuel
  induction fuel with
  | zero => intro n h; simp [natDigitsAux] at h
  | succ f ih =>
      intro n h
      simp only [natDigitsAux] at h
      by_cases hn : n < 10
      · rw [if_pos hn] at h
        simp only [List.mem_singleton] at h
        exact ⟨n, h⟩
      · rw [if_neg hn] at h
        rcases List.mem_append.1 h with h1 | h1
        · exact ih _ h1
        · simp only [List.mem_singleton] at h1
          exact ⟨n % 10, h1⟩

lemma natToChars_mem {c : Char} {n : ℕ} (h : c ∈ natToChars n) : ∃ k, c = digitChar k :=
  natDigitsAux_mem _ _ h

lemma natToChars_ne_nil (n : ℕ) : natToChars n ≠ [] := by
  unfold natToChars
  simp only [natDigitsAux]
  split
  · simp
  · exact List.append_ne_nil_of_right_ne_nil _ (by simp)

lemma fracDigits_mem {c : Char} :
    ∀ (fuel : ℕ) (r : MyRat), c ∈ fracDigits fuel r → ∃ k, c = digitChar k := by
  intro fuel
  induction fuel with
  | zero => intro r h; simp [fracDigits] at h
  | succ f ih =>
      intro r h
      simp only [fracDigits] at h
      by_cases hr : r = 0
      · rw [if_pos hr] at h; simp at h
      · rw [if_neg hr] at h
        rcases List.mem_cons.1 h with h1 | h1
        · exact ⟨_, h1⟩
        · exact ih _ h1

lemma natToChars_noDot (n : ℕ) : ∀ c ∈ natToChars n, c ≠ '.' := by
  intro c hc
  obtain ⟨k, rfl⟩ := natToChars_mem hc
  exact digitChar_ne_dot k

lemma fracDigits_noDot (fuel : ℕ) (r : MyRat) : ∀ c ∈ fracDigits fuel r, c ≠ '.' := by
  intro c hc
  obtain ⟨k, rfl⟩ := fracDigits_mem _ _ hc
  exact digitChar_ne_dot k

lemma count_dot_eq_zero (l : List Char) (h : ∀ c ∈ l, c ≠ '.') : List.count '.' l = 0 :=
  List.count_eq_zero.2 fun hm => h '.' hm rfl

lemma count_le_one_singleton (a b : Char) : List.count a [b] ≤ 1 := by
  by_cases h : a = b
  · subst h
    rw [List.count_cons_self]
    simp
  · rw [List.count_cons_of_ne h]
    simp

lemma dropWhile_append_of_all {α : Type} {p : α → Bool} {l₁ l₂ : List α}
    (h : ∀ c ∈ l₁, p c = true) :
    (l₁ ++ l₂).dropWhile p = l₂.dropWhile p := by
  induction l₁ with
  | nil => simp
  | cons x xs ih =>
      rw [List.cons_append, List.dropWhile_cons, if_pos (h x (by simp))]
      exact ih fun c hc => h c (by simp [hc])

lemma dropWhile_append_of_ne_nil {α : Type} {p : α → Bool} {l₁ l₂ : List α}
    (h : l₁.dropWhile p ≠ []) :
    (l₁ ++ l₂).dropWhile p = l₁.dropWhile p ++ l₂ := by
  induction l₁ with
  | nil => simp at h
  | cons x xs ih =>
      by_cases hp : p x = true
      · rw [List.dropWhile_cons, if_pos hp] at h
        rw [List.cons_append, List.dropWhile_cons, if_pos hp, List.dropWhile_cons, if_pos hp]
        exact ih h
      · rw [List.cons_append, List.dropWhile_cons, if_neg hp, List.dropWhile_cons, if_neg hp,
          List.cons_append]

lemma dropWhile_head_false {α : Type} {p : α → Bool} :
    ∀ {l : List α} {x : α} {xs : List α}, l.dropWhile p = x :: xs → p x = false := by
  intro l
  induction l with
  | nil => intro x xs h; simp at h
  | cons c cs ih =>
      intro x xs h
      rw [List.dropWhile_cons] at h
      by_cases hp : p c = true
      · rw [if_pos hp] at h; exact ih h
      · rw [if_neg hp] at h
        cases h
        simpa using hp

lemma fracLen_cons {c : Char} {l : List Char} (h : c ≠ '.') :
    fracLen (c :: l) = fracLen l := by
  unfold fracLen
  rw [List.dropWhile_cons, if_pos (by simpa using h)]

lemma fracLen_append_dot {l₁ ds : List Char} (h : ∀ c ∈ l₁, c ≠ '.') :
    fracLen (l₁ ++ '.' :: ds) = ds.length := by
  unfold fracLen
  rw [dropWhile_append_of_all (by intro c hc; simpa using h c hc), List.dropWhile_cons,
    if_neg (by simp)]

/-! ### Display well-formedness of the formatting functions -/

lemma goodDisplay_of_noMinus {l : List Char} (hne : l ≠ []) (h : ∀ c ∈ l, c ≠ '-')
    (hcnt : List.count '.' l ≤ 1) : goodDisplay l := by
  refine ⟨hne, ?_, fun c hc => h c (List.drop_subset 1 l hc), hcnt⟩
  intro he
  exact h '-' (by rw [he]; simp) rfl

lemma goodDisplay_minus_cons {l : List Char} (hne : l ≠ []) (h : ∀ c ∈ l, c ≠ '-')
    (hcnt : List.count '.' l ≤ 1) : goodDisplay ('-' :: l) := by
  refine ⟨by simp, by simpa using hne, ?_, ?_⟩
  · intro c hc
    exact h c (by simpa using hc)
  · rw [List.count_cons_of_ne (show ('.' : Char) ≠ '-' by decide)]
    exact hcnt

lemma posRatToChars_noMinus (q : MyRat) : ∀ c ∈ posRatToChars q, c ≠ '-' := by
  intro c hc
  simp only [posRatToChars] at hc
  split at hc
  · obtain ⟨k, rfl⟩ := natToChars_mem hc
    exact digitChar_ne_minus k
  · rcases List.mem_append.1 hc with h1 | h1
    · obtain ⟨k, rfl⟩ := natToChars_mem h1
      exact digitChar_ne_minus k
    · rcases List.mem_cons.1 h1 with h2 | h2
      · subst h2; decide
      · obtain ⟨k, rfl⟩ := fracDigits_mem _ _ h2
        exact digitChar_ne_minus k

lemma posRatToChars_ne_nil (q : MyRat) : posRatToChars q ≠ [] := by
  simp only [posRatToChars]
  split
  · exact natToChars_ne_nil _
  · exact List.append_ne_nil_of_right_ne_nil _ (by simp)

lemma count_dot_posRatToChars (q : MyRat) : List.count '.' (posRatToChars q) ≤ 1 := by
  simp only [posRatToChars]
  split
  · rw [count_dot_eq_zero _ (natToChars_noDot _)]
    omega
  · rw [List.count_append, count_dot_eq_zero _ (natToChars_noDot _), List.count_cons_self,
      count_dot_eq_zero _ (fracDigits_noDot _ _)]

lemma goodDisplay_jsString (x : JSNum) : goodDisplay (jsString x) := by
  cases x with
  | nan => decide
  | inf => decide
  | negInf => decide
  | num q =>
      simp only [jsString]
      split
      · exact goodDisplay_minus_cons (posRatToChars_ne_nil _) (posRatToChars_noMinus _)
          (count_dot_posRatToChars _)
      · exact goodDisplay_of_noMinus (posRatToChars_ne_nil _) (posRatToChars_noMinus _)
          (count_dot_posRatToChars _)

lemma fixedMag_noMinus (q : MyRat) (f : ℕ) : ∀ c ∈ fixedMag q f, c ≠ '-' := by
  intro c hc
  simp only [fixedMag] at hc
  split at hc
  · split at hc
    · obtain ⟨k, rfl⟩ := natToChars_mem hc
      exact digitChar_ne_minus k
    · rcases List.mem_append.1 hc with h1 | h1
      · obtain ⟨k, rfl⟩ := natToChars_mem h1
        exact digitChar_ne_minus k
      · rcases List.mem_cons.1 h1 with h2 | h2
        · subst h2; decide
        · obtain ⟨i, _, rfl⟩ := List.mem_map.1 h2
          exact digitChar_ne_minus _
  · exact posRatToChars_noMinus _ _ hc

lemma fixedMag_ne_nil (q : MyRat) (f : ℕ) : fixedMag q f ≠ [] := by
  simp only [fixedMag]
  split
  · split
    · exact natToChars_ne_nil _
    · exact List.append_ne_nil_of_right_ne_nil _ (by simp)
  · exact posRatToChars_ne_nil _

lemma count_dot_fixedMag (q : MyRat) (f : ℕ) : List.count '.' (fixedMag q f) ≤ 1 := by
  simp only [fixedMag]
  split
  · split
    · rw [count_dot_eq_zero _ (natToChars_noDot _)]
      omega
    · have hmap : ∀ c ∈ (List.range f).map
          (fun i => digitChar (ratIntPart (q * (10 : MyRat) ^ f + 1 / 2) / 10 ^ (f - 1 - i))),
          c ≠ '.' := by
        intro c hc
        obtain ⟨i, _, rfl⟩ := List.mem_map.1 hc
        exact digitChar_ne_dot _
      rw [List.count_append, count_dot_eq_zero _ (natToChars_noDot _), List.count_cons_self,
        count_dot_eq_zero _ hmap]
  · exact count_dot_posRatToChars _

lemma goodDisplay_jsToFixedTotal (x : JSNum) (f : ℕ) : goodDisplay (jsToFixedTotal x f) := by
  cases x with
  | nan => exact (by decide : goodDisplay "NaN".data)
  | inf => exact (by decide : goodDisplay "Infinity".data)
  | negInf => exact (by decide : goodDisplay "-Infinity".data)
  | num q =>
      simp only [jsToFixedTotal]
      split
      · exact goodDisplay_minus_cons (fixedMag_ne_nil _ _) (fixedMag_noMinus _ _)
          (count_dot_fixedMag _ _)
      · exact goodDisplay_of_noMinus (fixedMag_ne_nil _ _) (fixedMag_noMinus _ _)
          (count_dot_fixedMag _ _)

/-! ### Displayed-string characterizations of the handlers -/

lemma handleDigit_display (d : Char) (s : CalcState) :
    (handleDigit d s).displayValue =
      if s.displayValue = "0".data then [d]
      else if s.displayValue = "-0".data then ['-', d]
      else if s.isPending = true then [d]
      else s.displayValue ++ [d] := by
  simp only [handleDigit]
  split_ifs <;> rfl

lemma handleDot_display (s : CalcState) :
    (handleDot s).displayValue =
      if s.isPending = true then "0.".data
      else if '.' ∉ s.displayValue then s.displayValue ++ ['.']
      else s.displayValue := by
  simp only [handleDot]
  split_ifs <;> rfl

lemma handleBackspace_display (s : CalcState) :
    (handleBackspace s).displayValue =
      if s.displayValue.dropLast = [] ∨ s.displayValue.dropLast = ['-'] then "0".data
      else s.displayValue.dropLast := by
  simp only [handleBackspace]
  split_ifs <;> rfl

lemma changeSign_display (s : CalcState) :
    (changeSign s).displayValue =
      if s.isPending = true ∧ s.operator ≠ Op.eq then "-0".data
      else if s.displayValue.head? = some '-' then s.displayValue.drop 1
      else '-' :: s.displayValue := by
  simp only [changeSign]
  split_ifs <;> rfl

lemma changeSign_pending (s : CalcState) :
    (changeSign s).isPending =
      if s.isPending = true ∧ s.operator ≠ Op.eq then false else s.isPending := by
  simp only [changeSign]
  split_ifs <;> rfl

/-! ### Preservation of display well-formedness by every handler -/

lemma goodDisplay_append {l : List Char} {c : Char} (h : goodDisplay l) (hc : c ≠ '-')
    (hcd : c ≠ '.') : goodDisplay (l ++ [c]) := by
  obtain ⟨h1, h2, h3, h4⟩ := h
  obtain ⟨x, xs, rfl⟩ := List.exists_cons_of_ne_nil h1
  refine ⟨by simp, by simp, ?_, ?_⟩
  · intro d hd
    rw [List.cons_append] at hd
    simp only [List.drop_succ_cons, List.drop_zero] at hd
    rcases List.mem_append.1 hd with h5 | h5
    · exact h3 d (by simpa using h5)
    · simp only [List.mem_singleton] at h5
      subst h5
      exact hc
  · rw [List.count_append, count_dot_eq_zero [c] (fun d hd => by
      simp only [List.mem_singleton] at hd
      subst hd
      exact hcd)]
    simpa using h4

lemma goodDisplay_append_dot {l : List Char} (h : goodDisplay l) (hni : '.' ∉ l) :
    goodDisplay (l ++ ['.']) := by
  obtain ⟨h1, h2, h3, _⟩ := h
  obtain ⟨x, xs, rfl⟩ := List.exists_cons_of_ne_nil h1
  refine ⟨by simp, by simp, ?_, ?_⟩
  · intro d hd
    rw [List.cons_append] at hd
    simp only [List.drop_succ_cons, List.drop_zero] at hd
    rcases List.mem_append.1 hd with h5 | h5
    · exact h3 d (by simpa using h5)
    · simp only [List.mem_singleton] at h5
      subst h5
      decide
  · rw [List.count_append, List.count_eq_zero.2 hni, List.count_cons_self]
    simp

lemma mem_drop_one_dropLast {l : List Char} {c : Char} (h : c ∈ l.dropLast.drop 1) :
    c ∈ l.drop 1 := by
  cases l with
  | nil => simp at h
  | cons x xs =>
      cases xs with
      | nil => simp at h
      | cons y ys =>
          have hd : (x :: y :: ys).dropLast = x :: (y :: ys).dropLast := rfl
          rw [hd] at h
          simp only [List.drop_succ_cons, List.drop_zero] at h ⊢
          exact (List.dropLast_sublist (y :: ys)).subset h

lemma good_step {o : EngineOp} {s : CalcState} (ho : goodOp o = true)
    (h : goodDisplay s.displayValue) : goodDisplay ((execOp o s).displayValue) := by
  obtain ⟨h1, h2, h3, h4⟩ := h
  cases o with
  | digit d =>
      have hdig : d.isDigit = true := by simpa [goodOp] using ho
      have hd : d ≠ '-' := isDigit_ne_minus hdig
      have hdot : d ≠ '.' := isDigit_ne_dot hdig
      show goodDisplay ((handleDigit d s).displayValue)
      rw [handleDigit_display]
      split_ifs
      · exact ⟨by simp, by simpa using hd, by simp, count_le_one_singleton _ _⟩
      · refine ⟨by simp, by simp, by simpa using hd, ?_⟩
        rw [List.count_cons_of_ne (show ('.' : Char) ≠ '-' by decide)]
        exact count_le_one_singleton _ _
      · exact ⟨by simp, by simpa using hd, by simp, count_le_one_singleton _ _⟩
      · exact goodDisplay_append ⟨h1, h2, h3, h4⟩ hd hdot
  | dot =>
      show goodDisplay ((handleDot s).displayValue)
      by_cases e1 : s.isPending = true
      · rw [handleDot_display, if_pos e1]
        exact (by decide : goodDisplay "0.".data)
      · by_cases e2 : '.' ∈ s.displayValue
        · rw [handleDot_display, if_neg e1, if_neg (by simpa using e2)]
          exact ⟨h1, h2, h3, h4⟩
        · rw [handleDot_display, if_neg e1, if_pos e2]
          exact goodDisplay_append_dot ⟨h1, h2, h3, h4⟩ e2
  | backspace =>
      show goodDisplay ((handleBackspace s).displayValue)
      rw [handleBackspace_display]
      split_ifs with e1
      · exact (by decide : goodDisplay "0".data)
      · push_neg at e1
        exact ⟨e1.1, e1.2, fun c hc => h3 c (mem_drop_one_dropLast hc),
          ((List.dropLast_sublist s.displayValue).count_le '.').trans h4⟩
  | sign =>
      show goodDisplay ((changeSign s).displayValue)
      rw [changeSign_display]
      obtain ⟨x, xs, hxl⟩ := List.exists_cons_of_ne_nil h1
      split_ifs with e1 e2
      · exact (by decide : goodDisplay "-0".data)
      · rw [hxl] at e2 h2 h3 h4 ⊢
        have hx : x = '-' := by simpa using e2
        subst hx
        simp only [List.drop_succ_cons, List.drop_zero] at h3 ⊢
        rw [List.count_cons_of_ne (show ('.' : Char) ≠ '-' by decide)] at h4
        have hxs1 : xs ≠ [] := by
          intro he
          exact h2 (by rw [he])
        refine ⟨hxs1, ?_, ?_, h4⟩
        · intro he
          exact h3 '-' (by rw [he]; simp) rfl
        · exact fun c hc => h3 c (List.drop_subset 1 xs hc)
      · rw [hxl] at e2 h3 h4 ⊢
        have hx : x ≠ '-' := by
          intro he
          exact e2 (by rw [he]; rfl)
        refine goodDisplay_minus_cons (by simp) ?_ h4
        intro c hc
        rcases List.mem_cons.1 hc with h5 | h5
        · subst h5; exact hx
        · exact h3 c (by simpa using h5)
  | percent =>
      show goodDisplay ((handlePercent s).displayValue)
      simp only [handlePercent, jsToFixed]
      split_ifs
      · exact ⟨h1, h2, h3, h4⟩
      · exact ⟨h1, h2, h3, h4⟩
      · exact goodDisplay_jsToFixedTotal _ _
  | calcKey o =>
      show goodDisplay ((calculate o s).displayValue)
      unfold calculate
      cases hA : (if s.operator = Op.eq then calculateAgain o s else none) with
      | some s1 =>
          show goodDisplay s1.displayValue
          by_cases ho2 : s.operator = Op.eq
          · rw [if_pos ho2] at hA
            simp only [calculateAgain] at hA
            split at hA
            · cases hA
            · cases hA
              exact goodDisplay_jsString _
          · rw [if_neg ho2] at hA
            cases hA
      | none =>
          cases hB : (if s.isPending = true then pendingCalculation o s else none) with
          | some s2 =>
              show goodDisplay s2.displayValue
              by_cases hp : s.isPending = true
              · rw [if_pos hp] at hB
                simp only [pendingCalculation] at hB
                split at hB
                · cases hB
                · cases hB
                  exact ⟨h1, h2, h3, h4⟩
              · rw [if_neg hp] at hB
                cases hB
          | none =>
              cases s.value with
              | none => exact ⟨h1, h2, h3, h4⟩
              | some v => exact goodDisplay_jsString _
  | clearEntry =>
      show goodDisplay ((clear s).displayValue)
      simp only [clear]
      split_ifs
      · exact (by decide : goodDisplay "0".data)
      · exact (by decide : goodDisplay "0".data)
  | allClear => exact (by decide : goodDisplay "0".data)

lemma run_good_aux :
    ∀ (ops : List EngineOp) (s : CalcState), (∀ o ∈ ops, goodOp o = true) →
      goodDisplay s.displayValue →
      goodDisplay ((ops.foldl (fun t o => execOp o t) s).displayValue) := by
  intro ops
  induction ops with
  | nil => intro s _ hs; exact hs
  | cons o rest ih =>
      intro s hops hs
      rw [List.foldl_cons]
      exact ih _ (fun o2 h2 => hops o2 (by simp [h2])) (good_step (hops o (by simp)) hs)

/-! ### The claims -/

/-- C9: after any `calculate(nextOperator)` call, in any starting state and
for every operator, the post-state has `isPending = true` and
`operator = nextOperator`, whichever of the three branches ran. -/
theorem claimC9 (s : CalcState) (nextOp : Op) :
    (calculate nextOp s).isPending = true ∧ (calculate nextOp s).operator = nextOp := by
  unfold calculate
  cases hA : (if s.operator = Op.eq then calculateAgain nextOp s else none) with
  | some s1 =>
      show s1.isPending = true ∧ s1.operator = nextOp
      by_cases ho2 : s.operator = Op.eq
      · rw [if_pos ho2] at hA
        simp only [calculateAgain] at hA
        split at hA
        · cases hA
        · rename_i hcond
          push_neg at hcond
          cases hA
          exact ⟨rfl, ho2.trans hcond.2.symm⟩
      · rw [if_neg ho2] at hA
        cases hA
  | none =>
      cases hB : (if s.isPending = true then pendingCalculation nextOp s else none) with
      | some s2 =>
          show s2.isPending = true ∧ s2.operator = nextOp
          by_cases hp : s.isPending = true
          · rw [if_pos hp] at hB
            simp only [pendingCalculation] at hB
            split at hB
            · cases hB
            · cases hB
              exact ⟨hp, rfl⟩
          · rw [if_neg hp] at hB
            cases hB
      | none =>
          cases s.value with
          | none => exact ⟨rfl, rfl⟩
          | some v => exact ⟨rfl, rfl⟩

/-- C4: when `isPending` holds, the pending-operator-swap guard passes
(not a first `=` after a binary operator) and the repeat-equals branch does
not apply, `calculate` only replaces the stored operator — every other
field is untouched and no arithmetic runs. -/
theorem claimC4 (s : CalcState) (nextOp : Op)
    (hp : s.isPending = true)
    (hswap : ¬(nextOp = Op.eq ∧ s.operator ≠ Op.eq))
    (hrep : ¬(s.operator = Op.eq ∧ nextOp = Op.eq ∧ s.previousOperator ≠ Op.eq)) :
    calculate nextOp s = { s with operator := nextOp } := by
  unfold calculate
  have hA : (if s.operator = Op.eq then calculateAgain nextOp s else none) = none := by
    by_cases ho2 : s.operator = Op.eq
    · rw [if_pos ho2]
      simp only [calculateAgain]
      rw [if_pos (by tauto)]
    · rw [if_neg ho2]
  have hB : (if s.isPending = true then pendingCalculation nextOp s else none) =
      some { s with operator := nextOp } := by
    rw [if_pos hp]
    simp only [pendingCalculation]
    rw [if_neg hswap]
  rw [hA, hB]

/-- Witness for C4: after `5 +` the user switches the operator to `*`. -/
theorem claimC4_witness :
    (run [EngineOp.digit '5', EngineOp.calcKey Op.add]).isPending = true
    ∧ ¬(Op.mul = Op.eq ∧ (run [EngineOp.digit '5', EngineOp.calcKey Op.add]).operator ≠ Op.eq)
    ∧ ¬((run [EngineOp.digit '5', EngineOp.calcKey Op.add]).operator = Op.eq ∧ Op.mul = Op.eq
        ∧ (run [EngineOp.digit '5', EngineOp.calcKey Op.add]).previousOperator ≠ Op.eq)
    ∧ calculate Op.mul (run [EngineOp.digit '5', EngineOp.calcKey Op.add]) =
        { run [EngineOp.digit '5', EngineOp.calcKey Op.add] with operator := Op.mul } :=
  ⟨by decide, by decide, by decide,
    claimC4 (run [EngineOp.digit '5', EngineOp.calcKey Op.add]) Op.mul
      (by decide) (by decide) (by decide)⟩

/-- C8: with an operator pending (sign pressed right after choosing a binary
operator, before any digit), `changeSign` sets the display to `"-0"`, marks
the state dirty and clears `isPending`; and the concrete run
`4`, `+`, `±` ends with display `"-0"` and `isPending = false`. -/
theorem claimC8 (s : CalcState) (hp : s.isPending = true) (ho : s.operator ≠ Op.eq) :
    changeSign s = { s with displayValue := "-0".data, isDirty := true, isPending := false }
    ∧ (run [EngineOp.digit '4', EngineOp.calcKey Op.add, EngineOp.sign]).displayValue = "-0".data
    ∧ (run [EngineOp.digit '4', EngineOp.calcKey Op.add, EngineOp.sign]).isPending = false := by
  refine ⟨?_, by decide, by decide⟩
  simp only [changeSign]
  rw [if_pos ⟨hp, ho⟩]

/-- Witness for C8 at the state reached by `4`, `+`. -/
theorem claimC8_witness :
    (run [EngineOp.digit '4', EngineOp.calcKey Op.add]).isPending = true
    ∧ (run [EngineOp.digit '4', EngineOp.calcKey Op.add]).operator ≠ Op.eq
    ∧ changeSign (run [EngineOp.digit '4', EngineOp.calcKey Op.add]) =
        { run [EngineOp.digit '4', EngineOp.calcKey Op.add] with
            displayValue := "-0".data, isDirty := true, isPending := false } :=
  ⟨by decide, by decide,
    (claimC8 (run [EngineOp.digit '4', EngineOp.calcKey Op.add]) (by decide) (by decide)).1⟩

lemma backspace_zero {s : CalcState} (h0 : s.displayValue = "0".data) :
    (handleBackspace s).displayValue = "0".data := by
  rw [handleBackspace_display, h0]
  decide

lemma backspace_iter_zero (n : ℕ) :
    ∀ s : CalcState, s.displayValue = "0".data →
      (handleBackspace^[n] s).displayValue = "0".data := by
  induction n with
  | zero => intro s h0; simpa using h0
  | succ m ih =>
      intro s h0
      rw [Function.iterate_succ_apply]
      exact ih _ (backspace_zero h0)

/-- C7: `backspace` — in every state — drops the last display character,
resetting to `"0"` when what is left is empty or a bare minus, and keeping
the trimmed value while marking dirty otherwise; consequently from a
display of `"0"` or `"-0"` any positive number of backspaces shows `"0"`,
and the display is never the empty string. -/
theorem claimC7 (s : CalcState) (n : ℕ)
    (h : s.displayValue = "0".data ∨ s.displayValue = "-0".data) :
    (∀ t : CalcState, handleBackspace t =
      if t.displayValue.dropLast = [] ∨ t.displayValue.dropLast = ['-'] then
        { t with displayValue := "0".data }
      else { t with displayValue := t.displayValue.dropLast, isDirty := true })
    ∧ (handleBackspace^[n + 1] s).displayValue = "0".data
    ∧ (handleBackspace^[n] s).displayValue ≠ [] := by
  have hstep : (handleBackspace s).displayValue = "0".data := by
    rcases h with h | h <;> (rw [handleBackspace_display, h]; decide)
  refine ⟨fun t => by simp only [handleBackspace], ?_, ?_⟩
  · rw [Function.iterate_succ_apply]
    exact backspace_iter_zero n _ hstep
  · cases n with
    | zero =>
        show s.displayValue ≠ []
        rcases h with h | h <;> (rw [h]; decide)
    | succ m =>
        rw [Function.iterate_succ_apply, backspace_iter_zero m _ hstep]
        decide

/-- Witness for C7: the general characterization instantiated at the dirty
state showing `"42"` (exercising the keep-trimmed-and-mark-dirty branch),
and the iterated part at the initial state with three backspaces. -/
theorem claimC7_witness :
    (initState.displayValue = "0".data ∨ initState.displayValue = "-0".data)
    ∧ (handleBackspace (run [EngineOp.digit '4', EngineOp.digit '2']) =
        if (run [EngineOp.digit '4', EngineOp.digit '2']).displayValue.dropLast = []
            ∨ (run [EngineOp.digit '4', EngineOp.digit '2']).displayValue.dropLast = ['-'] then
          { run [EngineOp.digit '4', EngineOp.digit '2'] with displayValue := "0".data }
        else { run [EngineOp.digit '4', EngineOp.digit '2'] with
                displayValue := (run [EngineOp.digit '4', EngineOp.digit '2']).displayValue.dropLast
                isDirty := true })
    ∧ (handleBackspace (run [EngineOp.digit '4', EngineOp.digit '2'])).displayValue = "4".data
    ∧ (handleBackspace^[2 + 1] initState).displayValue = "0".data
    ∧ (handleBackspace^[2] initState).displayValue ≠ [] :=
  ⟨by decide,
    (claimC7 initState 2 (by decide)).1 (run [EngineOp.digit '4', EngineOp.digit '2']),
    by decide,
    (claimC7 initState 2 (by decide)).2.1,
    (claimC7 initState 2 (by decide)).2.2⟩

/-- C1: when neither the repeat-equals branch nor the pending-operator swap
applies, `calculate` parses the display; with no accumulator it only seeds
`value` with the parsed number, otherwise it applies the current operator to
`(value or 0, number)`, records the operand, shows the formatted result and
marks dirty; in both cases it then sets `isPending`, shifts the operator
into `previousOperator` and installs `nextOperator`.  The run
`5`, `+`, `3`, `=` ends showing `"8"`. -/
theorem claimC1 (s : CalcState) (nextOp : Op)
    (h1 : ¬(s.operator = Op.eq ∧ nextOp = Op.eq ∧ s.previousOperator ≠ Op.eq))
    (h2 : ¬(s.isPending = true ∧ ¬(nextOp = Op.eq ∧ s.operator ≠ Op.eq))) :
    (calculate nextOp s =
      match s.value with
      | none =>
          { s with value := some (jsNumber s.displayValue)
                   isPending := true
                   previousOperator := s.operator
                   operator := nextOp }
      | some v =>
          { s with value := some (jsApply s.operator (jsOrZero v) (jsNumber s.displayValue))
                   previousValue := some (jsNumber s.displayValue)
                   displayValue := jsString (jsApply s.operator (jsOrZero v) (jsNumber s.displayValue))
                   isDirty := true
                   isPending := true
                   previousOperator := s.operator
                   operator := nextOp })
    ∧ (run [EngineOp.digit '5', EngineOp.calcKey Op.add, EngineOp.digit '3',
        EngineOp.calcKey Op.eq]).displayValue = "8".data := by
  refine ⟨?_, by decide⟩
  unfold calculate
  have hA : (if s.operator = Op.eq then calculateAgain nextOp s else none) = none := by
    by_cases ho2 : s.operator = Op.eq
    · rw [if_pos ho2]
      simp only [calculateAgain]
      rw [if_pos (by tauto)]
    · rw [if_neg ho2]
  have hB : (if s.isPending = true then pendingCalculation nextOp s else none) = none := by
    by_cases hp : s.isPending = true
    · rw [if_pos hp]
      simp only [pendingCalculation]
      rw [if_pos (by tauto)]
    · rw [if_neg hp]
  rw [hA, hB]

/-- Witness for C1 at the state reached by `5`, `+`, `3`, applying `=`. -/
theorem claimC1_witness :
    (¬((run [EngineOp.digit '5', EngineOp.calcKey Op.add, EngineOp.digit '3']).operator = Op.eq
        ∧ Op.eq = Op.eq
        ∧ (run [EngineOp.digit '5', EngineOp.calcKey Op.add,
            EngineOp.digit '3']).previousOperator ≠ Op.eq))
    ∧ (¬((run [EngineOp.digit '5', EngineOp.calcKey Op.add, EngineOp.digit '3']).isPending = true
        ∧ ¬(Op.eq = Op.eq
            ∧ (run [EngineOp.digit '5', EngineOp.calcKey Op.add,
                EngineOp.digit '3']).operator ≠ Op.eq)))
    ∧ (run [EngineOp.digit '5', EngineOp.calcKey Op.add, EngineOp.digit '3',
        EngineOp.calcKey Op.eq]).displayValue = "8".data :=
  ⟨by decide, by decide,
    (claimC1 (run [EngineOp.digit '5', EngineOp.calcKey Op.add, EngineOp.digit '3']) Op.eq
      (by decide) (by decide)).2⟩

/-- C2, as stated, fails on the code: the repeat-equals branch applies the
previous operator to `previousValue || 0`, not to `previousValue` itself.
After `/ 0 = + = 5 =` (which is reachable) the state has
`previousOperand = NaN`, `operator = '='`, `previousOperator = '+'`; the
claim predicts display `String(5 + NaN) = "NaN"`, but the code shows `"5"`
(it adds `0` in place of the `NaN` operand). -/
theorem claimC2_counterexample :
    (run [EngineOp.calcKey Op.div, EngineOp.digit '0', EngineOp.calcKey Op.eq,
        EngineOp.calcKey Op.add, EngineOp.calcKey Op.eq, EngineOp.digit '5']).operator = Op.eq
    ∧ (run [EngineOp.calcKey Op.div, EngineOp.digit '0', EngineOp.calcKey Op.eq,
        EngineOp.calcKey Op.add, EngineOp.calcKey Op.eq,
        EngineOp.digit '5']).previousOperator = Op.add
    ∧ (run [EngineOp.calcKey Op.div, EngineOp.digit '0', EngineOp.calcKey Op.eq,
        EngineOp.calcKey Op.add, EngineOp.calcKey Op.eq,
        EngineOp.digit '5']).previousValue = some JSNum.nan
    ∧ (calculate Op.eq (run [EngineOp.calcKey Op.div, EngineOp.digit '0', EngineOp.calcKey Op.eq,
        EngineOp.calcKey Op.add, EngineOp.calcKey Op.eq,
        EngineOp.digit '5'])).displayValue = "5".data
    ∧ jsString (jsApply Op.add
        (jsNumber (run [EngineOp.calcKey Op.div, EngineOp.digit '0', EngineOp.calcKey Op.eq,
          EngineOp.calcKey Op.add, EngineOp.calcKey Op.eq,
          EngineOp.digit '5']).displayValue) JSNum.nan) = "NaN".data := by
  exact ⟨by decide, by decide, by decide, by decide, by decide⟩

/-- C2 amended: in every state with `operator = '='` and
`previousOperator ≠ '='`, `calculate('=')` applies `previousOperator` to the
parsed display and `previousOperand || 0` (`0` when the remembered operand
is `null` or `NaN`), stores the result as accumulator and display, sets
`isDirty` and `isPending`, and changes nothing else; the run `2 + 3 =`
shows `"5"` and a further `=` shows `"8"`. -/
theorem claimC2_amended (s : CalcState)
    (h1 : s.operator = Op.eq) (h2 : s.previousOperator ≠ Op.eq) :
    (calculate Op.eq s =
      { s with value := some (jsApply s.previousOperator (jsNumber s.displayValue)
                  (jsOrZeroOpt s.previousValue))
               displayValue := jsString (jsApply s.previousOperator (jsNumber s.displayValue)
                  (jsOrZeroOpt s.previousValue))
               isDirty := true
               isPending := true })
    ∧ (run [EngineOp.digit '2', EngineOp.calcKey Op.add, EngineOp.digit '3',
        EngineOp.calcKey Op.eq]).displayValue = "5".data
    ∧ (run [EngineOp.digit '2', EngineOp.calcKey Op.add, EngineOp.digit '3',
        EngineOp.calcKey Op.eq, EngineOp.calcKey Op.eq]).displayValue = "8".data := by
  refine ⟨?_, by decide, by decide⟩
  unfold calculate
  rw [if_pos h1]
  simp only [calculateAgain]
  rw [if_neg (by tauto)]

/-- Witness for C2 amended at the state reached by `2`, `+`, `3`, `=`. -/
theorem claimC2_witness :
    (run [EngineOp.digit '2', EngineOp.calcKey Op.add, EngineOp.digit '3',
        EngineOp.calcKey Op.eq]).operator = Op.eq
    ∧ (run [EngineOp.digit '2', EngineOp.calcKey Op.add, EngineOp.digit '3',
        EngineOp.calcKey Op.eq]).previousOperator ≠ Op.eq
    ∧ (run [EngineOp.digit '2', EngineOp.calcKey Op.add, EngineOp.digit '3',
        EngineOp.calcKey Op.eq, EngineOp.calcKey Op.eq]).displayValue = "8".data :=
  ⟨by decide, by decide,
    (claimC2_amended (run [EngineOp.digit '2', EngineOp.calcKey Op.add, EngineOp.digit '3',
        EngineOp.calcKey Op.eq]) (by decide) (by decide)).2.2⟩

/-- C10, as stated, fails on the code: in the reachable state after
`5`, `=`, `clear` the display is `"0"` with `isPending = true` and
`operator = '='`; `changeSign` turns the display into `"-0"` (leaving
`isPending` set), and the next digit then lands in the `"-0"` branch of
`handleDigit`, producing `"-3"` rather than replacing the display with
`"3"`. -/
theorem claimC10_counterexample :
    (run [EngineOp.digit '5', EngineOp.calcKey Op.eq, EngineOp.clearEntry]).isPending = true
    ∧ (run [EngineOp.digit '5', EngineOp.calcKey Op.eq, EngineOp.clearEntry]).operator = Op.eq
    ∧ (run [EngineOp.digit '5', EngineOp.calcKey Op.eq, EngineOp.clearEntry,
        EngineOp.sign]).isPending = true
    ∧ (run [EngineOp.digit '5', EngineOp.calcKey Op.eq, EngineOp.clearEntry, EngineOp.sign,
        EngineOp.digit '3']).displayValue = "-3".data
    ∧ "-3".data ≠ ['3'] := by
  exact ⟨by decide, by decide, by decide, by decide, by decide⟩

/-- C10 amended: with `isPending` and `operator = '='`, `changeSign` toggles
the leading minus of the display and leaves `isPending` set; provided the
toggled display is not `"-0"` (that is, the display before the toggle was
not `"0"`), a digit pressed next replaces the display with just that digit
— including when the toggle yields `"0"`.  (When the display was `"0"`,
the toggle yields `"-0"` and the next digit gives `"-d"` instead.) -/
theorem claimC10_amended (s : CalcState) (d : Char)
    (hp : s.isPending = true) (ho : s.operator = Op.eq) :
    (changeSign s).isPending = true
    ∧ (if s.displayValue.head? = some '-' then
        (changeSign s).displayValue = s.displayValue.drop 1
      else (changeSign s).displayValue = '-' :: s.displayValue)
    ∧ ((changeSign s).displayValue ≠ "-0".data →
        (handleDigit d (changeSign s)).displayValue = [d]) := by
  have hcond : ¬(s.isPending = true ∧ s.operator ≠ Op.eq) := by
    intro hco
    exact hco.2 ho
  have hpend : (changeSign s).isPending = true := by
    rw [changeSign_pending, if_neg hcond, hp]
  have hdisp : (changeSign s).displayValue =
      if s.displayValue.head? = some '-' then s.displayValue.drop 1
      else '-' :: s.displayValue := by
    rw [changeSign_display, if_neg hcond]
  refine ⟨hpend, ?_, ?_⟩
  · rw [hdisp]
    split_ifs <;> rfl
  · intro hmz
    by_cases hz : (changeSign s).displayValue = "0".data
    · rw [handleDigit_display, if_pos hz]
    · rw [handleDigit_display, if_neg hz, if_neg hmz, if_pos hpend]

/-- Witness for C10 amended at the state reached by `5`, `=`, with digit `3`. -/
theorem claimC10_witness :
    (run [EngineOp.digit '5', EngineOp.calcKey Op.eq]).isPending = true
    ∧ (run [EngineOp.digit '5', EngineOp.calcKey Op.eq]).operator = Op.eq
    ∧ (changeSign (run [EngineOp.digit '5', EngineOp.calcKey Op.eq])).isPending = true
    ∧ ((changeSign (run [EngineOp.digit '5', EngineOp.calcKey Op.eq])).displayValue ≠ "-0".data →
        (handleDigit '3' (changeSign (run [EngineOp.digit '5',
          EngineOp.calcKey Op.eq]))).displayValue = ['3']) :=
  ⟨by decide, by decide,
    (claimC10_amended (run [EngineOp.digit '5', EngineOp.calcKey Op.eq]) '3'
      (by decide) (by decide)).1,
    (claimC10_amended (run [EngineOp.digit '5', EngineOp.calcKey Op.eq]) '3'
      (by decide) (by decide)).2.2⟩

lemma handleDigit_dirty (d : Char) (s : CalcState) : (handleDigit d s).isDirty = true := by
  simp [handleDigit]

lemma handleDigit_pending (d : Char) (s : CalcState) : (handleDigit d s).isPending = false := by
  simp [handleDigit]

lemma digitRun (ds : List Char) (hdig : ∀ c ∈ ds, c.isDigit = true) :
    (ds.foldl (fun t d => handleDigit d t) initState).displayValue = collapseZeros ds
    ∧ (ds.foldl (fun t d => handleDigit d t) initState).isDirty = !ds.isEmpty
    ∧ (ds.foldl (fun t d => handleDigit d t) initState).isPending = false := by
  induction ds using List.reverseRecOn with
  | nil => exact ⟨rfl, rfl, rfl⟩
  | append_singleton l d ih =>
      obtain ⟨ih1, ih2, ih3⟩ := ih (fun c hc => hdig c (by simp [hc]))
      have hd' : d.isDigit = true := hdig d (by simp)
      rw [List.foldl_append, List.foldl_cons, List.foldl_nil]
      refine ⟨?_, ?_, handleDigit_pending _ _⟩
      swap
      · rw [handleDigit_dirty, List.isEmpty_eq_false.2 (show l ++ [d] ≠ [] by simp)]
        rfl
      rw [handleDigit_display, ih1, ih3]
      by_cases hz : l.dropWhile (fun c => c = '0') = []
      · have hcolL : collapseZeros l = ['0'] := by
          unfold collapseZeros
          rw [hz]
        have hcol : collapseZeros (l ++ [d]) = [d] := by
          unfold collapseZeros
          rw [dropWhile_append_of_all (List.dropWhile_eq_nil_iff.1 hz)]
          by_cases hd0 : d = '0'
          · subst hd0
            decide
          · rw [List.dropWhile_cons, if_neg (by simpa using hd0)]
        rw [hcolL, if_pos (by decide), hcol]
      · obtain ⟨c, cs, hcc⟩ := List.exists_cons_of_ne_nil hz
        have hc0 : c ≠ '0' := by
          have := dropWhile_head_false hcc
          simpa using this
        have hcl : collapseZeros l = c :: cs := by
          unfold collapseZeros
          rw [hcc]
        have hcin : c ∈ l := by
          rw [← List.takeWhile_append_dropWhile (fun c => decide (c = '0')) l]
          exact List.mem_append_right _ (by rw [hcc]; simp)
        have hcd : c.isDigit = true := hdig c (List.mem_append_left _ hcin)
        have hcol : collapseZeros (l ++ [d]) = c :: cs ++ [d] := by
          unfold collapseZeros
          rw [dropWhile_append_of_ne_nil hz, hcc]
          rfl
        rw [hcl, if_neg ?_, if_neg ?_, if_neg (by simp), hcol]
        · intro he
          have he2 : c :: cs = ['-', '0'] := he
          rw [List.cons.injEq] at he2
          exact isDigit_ne_minus hcd he2.1
        · intro he
          have he2 : c :: cs = ['0'] := he
          rw [List.cons.injEq] at he2
          exact hc0 he2.1

/-- C6: a digit-only key sequence from the initial state shows exactly the
typed digits with leading zeros collapsed, and every press leaves the state
dirty; pressing `1`, `2`, `3` shows `"123"`. -/
theorem claimC6 (ds : List Char) (hne : ds ≠ []) (hdig : ∀ c ∈ ds, c.isDigit = true) :
    (run (ds.map EngineOp.digit)).displayValue = collapseZeros ds
    ∧ (run (ds.map EngineOp.digit)).isDirty = true
    ∧ (run [EngineOp.digit '1', EngineOp.digit '2',
        EngineOp.digit '3']).displayValue = "123".data := by
  have hfold : run (ds.map EngineOp.digit) = ds.foldl (fun t d => handleDigit d t) initState := by
    unfold run
    rw [List.foldl_map]
    rfl
  obtain ⟨h1, h2, _⟩ := digitRun ds hdig
  refine ⟨by rw [hfold]; exact h1, ?_, by decide⟩
  rw [hfold, h2, List.isEmpty_eq_false.2 hne]
  rfl

/-- Witness for C6 at the digit sequence `1`, `2`, `3`. -/
theorem claimC6_witness :
    (['1', '2', '3'] : List Char) ≠ []
    ∧ (∀ c ∈ (['1', '2', '3'] : List Char), c.isDigit = true)
    ∧ ((run (['1', '2', '3'].map EngineOp.digit)).displayValue = collapseZeros ['1', '2', '3']
      ∧ (run (['1', '2', '3'].map EngineOp.digit)).isDirty = true
      ∧ (run [EngineOp.digit '1', EngineOp.digit '2',
          EngineOp.digit '3']).displayValue = "123".data) :=
  ⟨by decide, by decide, claimC6 ['1', '2', '3'] (by decide) (by decide)⟩

lemma fracLen_fixedMag (q : MyRat) (f : ℕ) (hf : f ≠ 0)
    (hq : q.num.natAbs < 10 ^ 21 * q.den) : fracLen (fixedMag q f) = f := by
  simp only [fixedMag]
  rw [if_pos hq, if_neg hf, fracLen_append_dot (natToChars_noDot _)]
  simp

lemma fracLen_jsToFixedTotal (q : MyRat) (f : ℕ) (hf : f ≠ 0)
    (hq : q.num.natAbs < 10 ^ 21 * q.den) :
    fracLen (jsToFixedTotal (JSNum.num q) f) = f := by
  have hq2 : (-q).num.natAbs < 10 ^ 21 * (-q).den := by
    show (-q.num).natAbs < 10 ^ 21 * q.den
    rwa [Int.natAbs_neg]
  simp only [jsToFixedTotal]
  split_ifs
  · rw [fracLen_cons (show ('-' : Char) ≠ '.' by decide), fracLen_fixedMag _ _ hf hq2]
  · exact fracLen_fixedMag _ _ hf hq

lemma fracLen_numBody (l : List Char) : fracLen (numBody l) = fracLen l := by
  unfold numBody
  cases l with
  | nil => rw [if_neg (by simp)]
  | cons c cs =>
      by_cases hc : c = '-'
      · subst hc
        rw [if_pos (by simp)]
        simp only [List.drop_succ_cons, List.drop_zero]
        rw [fracLen_cons (show ('-' : Char) ≠ '.' by decide)]
      · rw [if_neg (by simp [hc])]

lemma stripIntPrefix_length {l : List Char} (h : goodNumChars (numBody l) = true) :
    (stripIntPrefix l).length = fracLen l := by
  rw [← fracLen_numBody]
  unfold stripIntPrefix
  generalize numBody l = b at h ⊢
  unfold goodNumChars at h
  cases hr : b.dropWhile (fun c => c ≠ '.') with
  | nil =>
      simp only [hr] at h
      rw [Bool.and_eq_true] at h
      have hdig : ∀ c ∈ b, c.isDigit = true := by
        have h2 := h.2
        simpa [List.all_eq_true] using h2
      rw [List.dropWhile_eq_nil_iff.2 hdig, if_neg (by simp)]
      unfold fracLen
      simp only [hr]
      rfl
  | cons x fs =>
      have hx : x = '.' := by
        have hh := dropWhile_head_false hr
        simpa using hh
      subst hx
      simp only [hr] at h
      simp only [Bool.and_eq_true] at h
      obtain ⟨⟨⟨hA, _⟩, _⟩, _⟩ := h
      have hip : ∀ c ∈ b.takeWhile (fun c => decide (c ≠ '.')), c.isDigit = true := by
        simpa [List.all_eq_true] using hA
      have hdecomp : b.takeWhile (fun c => decide (c ≠ '.')) ++ '.' :: fs = b := by
        have ht := List.takeWhile_append_dropWhile (fun c => decide (c ≠ '.')) b
        rw [hr] at ht
        exact ht
      have hdw : b.dropWhile Char.isDigit = '.' :: fs := by
        conv_lhs => rw [← hdecomp]
        rw [dropWhile_append_of_all hip, List.dropWhile_cons,
          if_neg (by decide)]
      rw [hdw, if_pos (by simp)]
      simp only [List.drop_succ_cons, List.drop_zero]
      unfold fracLen
      simp only [hr]

end SampleCalculator
